import Mathlib

/-!
Verification of the sitecap capture pipeline against its specification.

Strings from the Go source are embedded as `List Char`; Go `int` values are
embedded as `Int` (with explicit 64-bit saturation where the source checks
`math.MaxInt`); Go's truncated integer division is `Int.tdiv`; Go `float64`
arithmetic on ratios is modelled exactly over `ℚ`; fallible Go functions
returning `(T, error)` are embedded as `Except (List Char) T`.
-/

deriving instance DecidableEq for Except

/-- `strings.Split` for a single-character separator (Go semantics:
`Split("x","x") = ["",""]`, `Split("","x") = [""]`). -/
def splitOnChar (sep : Char) : List Char → List (List Char)
  | [] => [[]]
  | c :: rest =>
    let r := splitOnChar sep rest
    if c = sep then [] :: r
    else
      match r with
      | [] => [[c]]
      | g :: gs => (c :: g) :: gs

/-- Decimal digit run to a natural number; `none` on empty input or any
non-digit character. -/
def digitsToNat : List Char → Option Nat
  | [] => none
  | s =>
    s.foldl
      (fun acc c =>
        acc.bind fun n => if c.isDigit then some (n * 10 + (c.toNat - 48)) else none)
      (some 0)

/-- Go `strconv.Atoi`: optional sign followed by at least one decimal digit
(overflow, which no claim exercises, is not modelled). -/
def goAtoi : List Char → Option Int
  | [] => none
  | '+' :: rest => (digitsToNat rest).map Int.ofNat
  | '-' :: rest => (digitsToNat rest).map fun n => -(Int.ofNat n)
  | s => (digitsToNat s).map Int.ofNat

/-- Go `strings.HasSuffix` for a single-character suffix. -/
def hasSuffixChar (s : List Char) (c : Char) : Bool :=
  match s.getLast? with
  | some d => d = c
  | none => false

/-- The `ResizeParams` struct of `resize.go`. -/
structure ResizeParams where
  Width : Int := 0
  Height : Int := 0
  KeepAspect : Bool := true
  Percentage : Bool := false
  AutoCrop : Bool := false
  Crop : Bool := false
  CropOffsetX : Int := 0
  CropOffsetY : Int := 0
deriving DecidableEq, Repr

/-- `parseResizeString` of `resize.go` (lines 41-119): strip `%` setting the
percentage flag, split on `+`/`_` for a manual crop offset, strip a `!`
(force-exact) or `#`/`^` (center crop) suffix, then split the remainder on
`x` into optional width and height. -/
def parseResizeString (input : List Char) : Except (List Char) ResizeParams :=
  let percentage := input.contains '%'
  let s1 := if percentage then input.filter (fun c => c != '%') else input
  let p0 : ResizeParams := { KeepAspect := true, Percentage := percentage }
  let cropSep : Option Char :=
    if s1.contains '+' then some '+'
    else if s1.contains '_' then some '_'
    else none
  let step1 : Except (List Char) (List Char × ResizeParams) :=
    match cropSep with
    | none => .ok (s1, p0)
    | some sep =>
      match splitOnChar sep s1 with
      | [dims, xs, ys] =>
        match goAtoi xs with
        | none => .error "invalid crop offset X".data
        | some x =>
          match goAtoi ys with
          | none => .error "invalid crop offset Y".data
          | some y =>
            .ok (dims, { p0 with CropOffsetX := x, CropOffsetY := y, Crop := true })
      | _ => .error "invalid crop offset format".data
  match step1 with
  | .error e => .error e
  | .ok (s2, p1) =>
    let r2 : List Char × ResizeParams :=
      if hasSuffixChar s2 '!' then (s2.dropLast, { p1 with KeepAspect := false })
      else (s2, p1)
    let s3 := r2.1
    let p2 := r2.2
    let r3 : List Char × ResizeParams :=
      if hasSuffixChar s3 '#' then (s3.dropLast, { p2 with AutoCrop := true })
      else if hasSuffixChar s3 '^' then (s3.dropLast, { p2 with AutoCrop := true })
      else (s3, p2)
    let s4 := r3.1
    let p3 := r3.2
    match splitOnChar 'x' s4 with
    | [ws, hs] =>
      let pw : Except (List Char) ResizeParams :=
        if ws = [] then .ok p3
        else
          match goAtoi ws with
          | none => .error "invalid width".data
          | some w => .ok { p3 with Width := w }
      match pw with
      | .error e => .error e
      | .ok p4 =>
        if hs = [] then .ok p4
        else
          match goAtoi hs with
          | none => .error "invalid height".data
          | some h => .ok { p4 with Height := h }
    | _ => .error "invalid resize format".data

/-- An exact rational `num / den`, the value the Go source computes in
`float64` (e.g. `float64(targetWidth) / float64(width)`). Denominators are
the source image dimensions, positive for every decodable image; the exact
value is kept unreduced so that every operation is plain integer
arithmetic. -/
structure Ratio where
  num : Int
  den : Int
deriving DecidableEq, Repr

/-- The rational value of a `Ratio`. -/
def Ratio.toRat (f : Ratio) : ℚ := Rat.divInt f.num f.den

/-- `a ≤ b` on ratio values, by cross-multiplication with squared (hence
nonnegative) denominators; agrees with `≤` on `ℚ` whenever both
denominators are positive. -/
def Ratio.le (a b : Ratio) : Bool :=
  a.num * a.den * (b.den * b.den) ≤ b.num * b.den * (a.den * a.den)

/-- `ratio ≤ 0`, the guard of `resize.go` lines 225 and 234. -/
def Ratio.nonpos (f : Ratio) : Bool := f.num * f.den ≤ 0

/-- `math.Min` on the exact ratio values. -/
def ratioMin (a b : Ratio) : Ratio := if a.le b then a else b

/-- `math.Max` on the exact ratio values. -/
def ratioMax (a b : Ratio) : Ratio := if a.le b then b else a

/-- Modelled from the spec: the image-codec collaborator's scale operation
(`vips.Image.Resize`) produces an output dimension equal to the source
dimension times the scale factor, rounded to the nearest integer
(`⌊n·r + 1/2⌋`, computed here over the integers for a positive
denominator). The collaborator itself is outside this repository. -/
def vipsScaledDim (n : Int) (f : Ratio) : Int :=
  (2 * n * f.num + f.den).fdiv (2 * f.den)

/-- The geometry computed by one call of `resizeImage` (`resize.go` lines
188-252): effective targets, scale factors, post-scale dimensions and the
crop rectangle (left, top, width, height) requested from `ExtractArea`. -/
structure ResizePlan where
  targetW : Int
  targetH : Int
  scaleX : Ratio
  scaleY : Ratio
  scaledW : Int
  scaledH : Int
  crop : Option (Int × Int × Int × Int)
deriving DecidableEq, Repr

/-- The geometry planning of `resizeImage` (`resize.go` lines 188-252) on a
source of dimensions `width × height`: manual crop bypasses scaling;
otherwise percentage targets use Go truncated division by 100, the scale
ratio is `min`/`max` of the per-axis ratios under `KeepAspect` (independent
axes otherwise), and `AutoCrop` requests a centered `ExtractArea` of
`(params.Width, params.Height)` on the scaled dimensions. -/
def planResize (p : ResizeParams) (width height : Int) : Except (List Char) ResizePlan :=
  if p.Crop then
    .ok { targetW := p.Width, targetH := p.Height,
          scaleX := ⟨1, 1⟩, scaleY := ⟨1, 1⟩,
          scaledW := width, scaledH := height,
          crop := some (p.CropOffsetX, p.CropOffsetY, p.Width, p.Height) }
  else
    let targetWidth := if p.Percentage then (width * p.Width).tdiv 100 else p.Width
    let targetHeight := if p.Percentage then (height * p.Height).tdiv 100 else p.Height
    if p.KeepAspect then
      let scaleRatio : Ratio :=
        if targetWidth = 0 then ⟨targetHeight, height⟩
        else if targetHeight = 0 then ⟨targetWidth, width⟩
        else
          let widthRatio : Ratio := ⟨targetWidth, width⟩
          let heightRatio : Ratio := ⟨targetHeight, height⟩
          if p.AutoCrop then ratioMax widthRatio heightRatio
          else ratioMin widthRatio heightRatio
      if scaleRatio.nonpos then .error "invalid scale ratio".data
      else
        let sw := vipsScaledDim width scaleRatio
        let sh := vipsScaledDim height scaleRatio
        .ok { targetW := targetWidth, targetH := targetHeight,
              scaleX := scaleRatio, scaleY := scaleRatio,
              scaledW := sw, scaledH := sh,
              crop := if p.AutoCrop then
                  some ((sw - p.Width).tdiv 2, (sh - p.Height).tdiv 2, p.Width, p.Height)
                else none }
    else
      let widthScale : Ratio := ⟨targetWidth, width⟩
      let heightScale : Ratio := ⟨targetHeight, height⟩
      if widthScale.nonpos ∨ heightScale.nonpos then .error "invalid scale ratio".data
      else
        let sw := vipsScaledDim width widthScale
        let sh := vipsScaledDim height heightScale
        .ok { targetW := targetWidth, targetH := targetHeight,
              scaleX := widthScale, scaleY := heightScale,
              scaledW := sw, scaledH := sh,
              crop := if p.AutoCrop then
                  some ((sw - p.Width).tdiv 2, (sh - p.Height).tdiv 2, p.Width, p.Height)
                else none }

/-- Parse a resize string and plan its geometry against a source image, as
`executeBrowserRequest` does for a captured screenshot. -/
def planFromString (s : List Char) (w h : Int) : Except (List Char) ResizePlan :=
  match parseResizeString s with
  | .error e => .error e
  | .ok p => planResize p w h

/-- Modelled from the spec: the glob engine (Go `path/filepath.Match`) used
by `isDomainWhitelisted`: `*` matches any (possibly empty) run of
non-separator (`/`) characters, `?` matches one such character, any other
pattern character matches itself. Character classes and escapes, which do
not occur in domain patterns, are not modelled. -/
def globMatch : List Char → List Char → Bool
  | [], s => s.isEmpty
  | p :: ps, s =>
    if p = '*' then
      globMatch ps s ||
        (match s with
         | [] => false
         | c :: rest => decide (c ≠ '/') && globMatch (p :: ps) rest)
    else
      match s with
      | [] => false
      | c :: rest =>
        if p = '?' then decide (c ≠ '/') && globMatch ps rest
        else decide (p = c) && globMatch ps rest
termination_by p s => (s.length, p.length)

/-- `strings.HasPrefix` for a single-character prefix. -/
def hasPrefixChar (s : List Char) (c : Char) : Bool :=
  match s with
  | [] => false
  | d :: _ => d = c

/-- `isDomainWhitelisted` (domains source file, lines 54-85), taken at the
hostname already extracted from the request URL by `net/url` (an external
parser; it fails closed, and an extracted hostname never contains `/`).
Each pattern is tried as a glob over the hostname, and a pattern starting
with `.` also matches any hostname ending in it or equal to it without the
leading dot. -/
def isDomainWhitelistedHost (hostname : List Char) (whitelist : List (List Char)) : Bool :=
  if whitelist.isEmpty then true
  else
    whitelist.any fun pattern =>
      globMatch pattern hostname ||
        (hasPrefixChar pattern '.' &&
          (List.isSuffixOf pattern hostname || hostname == pattern.drop 1))

/-- A `proto.FetchHeaderEntry` (name, value), strings as character lists. -/
structure FetchHeaderEntry where
  Name : List Char
  Value : List Char
deriving DecidableEq, Repr

/-- The header list built for `ContinueRequest` (`main.go` lines 523-539,
561-577, 593-609): first every entry already on the outgoing request, then
every custom header pair, with no removal of same-named entries. -/
def buildContinueHeaders (existing : List FetchHeaderEntry)
    (custom : List (List Char × List Char)) : List FetchHeaderEntry :=
  existing ++ custom.map fun kv => { Name := kv.1, Value := kv.2 }

/-- ASCII lower-casing, used only to state the claim's case-insensitive
header-name comparison. -/
def charLower (c : Char) : Char :=
  if 'A' ≤ c ∧ c ≤ 'Z' then Char.ofNat (c.toNat + 32) else c

/-- Case-insensitive equality of header names (claim-side notion). -/
def nameEqCI (a b : List Char) : Prop := a.map charLower = b.map charLower

instance (a b : List Char) : Decidable (nameEqCI a b) := by
  unfold nameEqCI; infer_instance

/-- The claim's header-merge contract: no original entry whose name
case-insensitively equals a custom key survives into the continued header
list. Stated from the spec's words, to be compared with
`buildContinueHeaders`. -/
def headerMergeRemovesSameNamed (existing : List FetchHeaderEntry)
    (custom : List (List Char × List Char)) : Prop :=
  ∀ e ∈ existing, (∃ kv ∈ custom, nameEqCI e.Name kv.1) →
    e ∉ buildContinueHeaders existing custom

instance (existing : List FetchHeaderEntry) (custom : List (List Char × List Char)) :
    Decidable (headerMergeRemovesSameNamed existing custom) := by
  unfold headerMergeRemovesSameNamed; infer_instance

/-- The `HijackConfig` struct of `main.go` (fields relevant to the
per-request decision). -/
structure HijackConfigM where
  DomainWhitelist : List (List Char)
  CustomHeaders : List (List Char × List Char)
  PermitFirstRequest : Bool
deriving DecidableEq, Repr

/-- The outcome of one hijack-router invocation: continue with an explicit
header list, continue unchanged, or fail with "blocked by client". -/
inductive HijackOutcome
  | continueWith (headers : List FetchHeaderEntry)
  | continuePlain
  | failBlocked
deriving DecidableEq, Repr

/-- The steady-state (non-exempt) branch of the hijack handler (`main.go`
lines 553-616): whitelist filtering when a whitelist is configured,
otherwise continue, applying custom headers when any are set. -/
def hijackSteady (cfg : HijackConfigM) (host : List Char)
    (existing : List FetchHeaderEntry) : HijackOutcome :=
  if cfg.DomainWhitelist.length > 0 then
    if isDomainWhitelistedHost host cfg.DomainWhitelist then
      if cfg.CustomHeaders.length > 0 then
        .continueWith (buildContinueHeaders existing cfg.CustomHeaders)
      else .continuePlain
    else .failBlocked
  else
    if cfg.CustomHeaders.length > 0 then
      .continueWith (buildContinueHeaders existing cfg.CustomHeaders)
    else .continuePlain

/-- One invocation of the hijack router callback (`main.go` lines 508-617)
against the current value of the `firstRequest` atomic flag. Returns the
outcome, whether the first-request-exempt path was taken, and the new flag
value; the compare-and-swap runs only when `PermitFirstRequest` is set
(Go's short-circuit `&&`). -/
def hijackHandle (cfg : HijackConfigM) (first : Bool) (host : List Char)
    (existing : List FetchHeaderEntry) : HijackOutcome × Bool × Bool :=
  let casSuccess := cfg.PermitFirstRequest && first
  let first' := if casSuccess then false else first
  if casSuccess then
    (if cfg.CustomHeaders.length > 0 then
        .continueWith (buildContinueHeaders existing cfg.CustomHeaders)
      else .continuePlain,
     true, first')
  else
    (hijackSteady cfg host existing, false, first')

/-- The hijack callback applied to a list of intercepted requests in
delivery order, threading the `firstRequest` flag. -/
def runHijackFrom (cfg : HijackConfigM) (first : Bool) :
    List (List Char × List FetchHeaderEntry) → List (HijackOutcome × Bool) × Bool
  | [] => ([], first)
  | r :: rest =>
    let h := hijackHandle cfg first r.1 r.2
    let tail := runHijackFrom cfg h.2.2 rest
    ((h.1, h.2.1) :: tail.1, tail.2)

/-- A whole page session: the hijack callback applied to each intercepted
request in delivery order, starting from `firstRequest = true`
(`firstRequest.Store(true)`, `main.go` line 507). Returns the outcome and
exempt-path marker of every invocation. -/
def runHijackSession (cfg : HijackConfigM)
    (reqs : List (List Char × List FetchHeaderEntry)) :
    List (HijackOutcome × Bool) × Bool :=
  runHijackFrom cfg true reqs

/-- `sync.Map.Store`: set the value at a key, overwriting in place if the
key is present, appending otherwise. -/
def assocStore {α : Type} : List (List Char × α) → List Char → α → List (List Char × α)
  | [], k, v => [(k, v)]
  | (k', v') :: rest, k, v =>
    if k' = k then (k, v) :: rest else (k', v') :: assocStore rest k v

/-- `sync.Map.Load`: the value at a key, if present. -/
def assocLookup {α : Type} : List (List Char × α) → List Char → Option α
  | [], _ => none
  | (k', v') :: rest, k => if k' = k then some v' else assocLookup rest k

/-- `sync.Map.Delete`: remove a key. -/
def assocErase {α : Type} : List (List Char × α) → List Char → List (List Char × α)
  | [], _ => []
  | (k', v') :: rest, k =>
    if k' = k then assocErase rest k else (k', v') :: assocErase rest k

/-- The `CapturedNetworkRequest` struct of `main.go` (timestamps as ticks,
duration as a signed difference of ticks). -/
structure CapturedNetworkRequest where
  URL : List Char
  Method : List Char
  StatusCode : Int := 0
  RequestHeaders : List (List Char × List Char)
  ResponseHeaders : List (List Char × List Char) := []
  Duration : Int := 0
  Timestamp : Nat
  Failed : Bool := false
  ErrorText : List Char := []
deriving DecidableEq, Repr

/-- The three network protocol events consumed by the capture correlator
(`main.go` lines 318-382), each carrying the observation tick. -/
inductive NetEvent
  | requestWillBeSent (id : List Char) (url method : List Char)
      (headers : List (List Char × List Char)) (now : Nat)
  | responseReceived (id : List Char) (status : Int)
      (headers : List (List Char × List Char)) (now : Nat)
  | loadingFailed (id : List Char) (errorText : List Char) (now : Nat)
deriving DecidableEq, Repr

/-- The correlator's mutable state: the two `sync.Map`s keyed by request
identifier and the finalized list guarded by `networkRequestsMutex`. -/
structure CorrelatorState where
  requestTimes : List (List Char × Nat)
  requestInfo : List (List Char × CapturedNetworkRequest)
  finalized : List CapturedNetworkRequest
deriving DecidableEq, Repr

/-- The initial correlator state of one page session. -/
def corrInit : CorrelatorState := ⟨[], [], []⟩

/-- One correlator event handler (`main.go` lines 318-382): a request-sent
event stores start time and record; a response or failure event looks the
identifier up in both maps and, only when found in both, finalizes the
record, appends it to the finalized list and evicts the key from both maps;
otherwise it changes nothing. -/
def corrStep (s : CorrelatorState) : NetEvent → CorrelatorState
  | .requestWillBeSent id url method headers now =>
    { s with
      requestTimes := assocStore s.requestTimes id now,
      requestInfo := assocStore s.requestInfo id
        { URL := url, Method := method, RequestHeaders := headers, Timestamp := now } }
  | .responseReceived id status headers now =>
    match assocLookup s.requestInfo id, assocLookup s.requestTimes id with
    | some info, some startTime =>
      let req := { info with
        StatusCode := status,
        Duration := (now : Int) - (startTime : Int),
        ResponseHeaders := headers }
      { requestTimes := assocErase s.requestTimes id,
        requestInfo := assocErase s.requestInfo id,
        finalized := s.finalized ++ [req] }
    | _, _ => s
  | .loadingFailed id errorText now =>
    match assocLookup s.requestInfo id, assocLookup s.requestTimes id with
    | some info, some startTime =>
      let req := { info with
        Failed := true,
        ErrorText := errorText,
        Duration := (now : Int) - (startTime : Int) }
      { requestTimes := assocErase s.requestTimes id,
        requestInfo := assocErase s.requestInfo id,
        finalized := s.finalized ++ [req] }
    | _, _ => s

/-- A whole session's event stream folded through the correlator. -/
def corrRun (events : List NetEvent) : CorrelatorState :=
  events.foldl corrStep corrInit

/-- Go's `math.MaxInt` on a 64-bit platform. -/
def maxGoInt : Int := 9223372036854775807

/-- The height computation of `adjustViewportForFullHeight` (`main.go`
lines 182-222), after the layout-metrics floats have been ceiled to
integers at the protocol boundary: `cfgH` is `config.ViewportHeight`,
`visualH`/`layoutH` the optional visual/layout viewport client heights and
`contentH` the measured content height. Returns the resolved minimum
baseline and the final target height. -/
def fullHeightPlan (cfgH : Int) (visualH layoutH : Option Int) (contentH : Int) :
    Int × Int :=
  let targetHeight := contentH
  let minH0 := cfgH
  let minH1 :=
    if minH0 ≤ 0 then (match visualH with | some v => v | none => minH0) else minH0
  let minH2 :=
    if minH1 ≤ 0 then (match layoutH with | some v => v | none => minH1) else minH1
  let minH3 := if minH2 ≤ 0 then targetHeight else minH2
  let minHeight := if minH3 ≤ 0 then 1 else minH3
  let t1 := if targetHeight ≤ 0 then minHeight else targetHeight
  let t2 := if t1 < minHeight then minHeight else t1
  let maxHeight :=
    if minHeight > 0 then
      (if minHeight > maxGoInt.tdiv 10 then maxGoInt else minHeight * 10)
    else minHeight
  let t3 := if maxHeight > 0 ∧ t2 > maxHeight then maxHeight else t2
  (minHeight, t3)

/-- `ParseViewportString` (`viewport.go`): empty means unset; otherwise
`WxH` with two positive integers. -/
def ParseViewportString (viewport : List Char) : Except (List Char) (Int × Int) :=
  if viewport = [] then .ok (0, 0)
  else
    match splitOnChar 'x' viewport with
    | [ws, hs] =>
      match goAtoi ws with
      | none => .error "invalid viewport width".data
      | some w =>
        if w ≤ 0 then .error "invalid viewport width".data
        else
          match goAtoi hs with
          | none => .error "invalid viewport height".data
          | some h =>
            if h ≤ 0 then .error "invalid viewport height".data
            else .ok (w, h)
    | _ => .error "invalid viewport format, expected WxH".data

/-- `parseTimeoutString` (timeout source file): empty means 0; otherwise a
number in [0, 300]. -/
def parseTimeoutString (timeout : List Char) : Except (List Char) Int :=
  if timeout = [] then .ok 0
  else
    match goAtoi timeout with
    | none => .error "invalid timeout value, must be a number".data
    | some seconds =>
      if seconds < 0 then .error "timeout cannot be negative".data
      else if seconds > 300 then .error "timeout cannot exceed 300 seconds".data
      else .ok seconds

/-- Go `strings.TrimSpace` restricted to ASCII whitespace. -/
def goTrimSpace (s : List Char) : List Char :=
  let ws := fun c : Char => c = ' ' ∨ c = '\t' ∨ c = '\n' ∨ c = '\r'
  ((s.dropWhile ws).reverse.dropWhile ws).reverse

/-- `ParseDomainWhitelist` (domains source file, lines 36-52): split on
commas, trim, drop empties; it can never return an error. -/
def ParseDomainWhitelist (whitelist : List Char) : Except (List Char) (List (List Char)) :=
  if whitelist = [] then .ok []
  else .ok (((splitOnChar ',' whitelist).map goTrimSpace).filter fun d => d ≠ [])

/-- The fields of `RequestConfig` (`main.go` lines 28-45) that the modelled
control flow reads. -/
structure RequestConfigM where
  ViewportWidth : Int := 0
  ViewportHeight : Int := 0
  TimeoutSeconds : Int := 0
  WaitSeconds : Int := 0
  DomainWhitelist : List (List Char) := []
  ResizeParam : List Char := []
  FullHeight : Bool := false
  CustomHeaders : List (List Char × List Char) := []
  Cookies : List (List Char) := []
  Debug : Bool := false
  CaptureCookies : Bool := false
  CaptureScreenshot : Bool := false
  CaptureHTML : Bool := false
  CaptureNetwork : Bool := false
  CaptureLogs : Bool := false
deriving DecidableEq, Repr

/-- `parseRequestConfig` (`main.go` lines 125-163): viewport, timeout, wait
and domain whitelist are parsed up front; the resize string is stored
unparsed. -/
def parseRequestConfig (viewportParam resizeParam timeoutParam waitParam domainsParam :
    List Char) (fullHeight : Bool) : Except (List Char) RequestConfigM :=
  match ParseViewportString viewportParam with
  | .error e => .error ("invalid viewport parameters: ".data ++ e)
  | .ok (vw, vh) =>
    match parseTimeoutString timeoutParam with
    | .error e => .error ("invalid timeout parameter: ".data ++ e)
    | .ok timeoutSeconds =>
      match parseTimeoutString waitParam with
      | .error e => .error ("invalid wait parameter: ".data ++ e)
      | .ok waitSeconds =>
        match ParseDomainWhitelist domainsParam with
        | .error e => .error ("invalid domain whitelist: ".data ++ e)
        | .ok domainWhitelist =>
          .ok { ViewportWidth := vw, ViewportHeight := vh,
                TimeoutSeconds := timeoutSeconds, WaitSeconds := waitSeconds,
                DomainWhitelist := domainWhitelist, ResizeParam := resizeParam,
                FullHeight := fullHeight }

/-- The browser interactions of `executeBrowserRequest` (`main.go` lines
624-763), in execution order. -/
inductive BrowserStep
  | connect
  | createPage
  | setCookies
  | setDocumentContent
  | navigate
  | setViewport
  | waitLoad
  | sleepWait
  | adjustFullHeight
  | getCookies
  | screenshot
  | getHTML
deriving DecidableEq, Repr

/-- The `HijackConfig` built by `executeBrowserRequest` (`main.go` lines
642-650): the first-request exemption is enabled exactly when the `url`
argument is non-empty. -/
def mkHijackConfig (url : List Char) (config : RequestConfigM) : HijackConfigM :=
  { DomainWhitelist := config.DomainWhitelist,
    CustomHeaders := config.CustomHeaders,
    PermitFirstRequest := url ≠ [] }

/-- The sequential control flow of `executeBrowserRequest` (`main.go` lines
624-763) with every external browser call succeeding: the list of browser
interactions performed, paired with the result. A malformed resize string
is only parsed after the screenshot is captured (lines 730-743), its error
wrapped as "invalid resize parameters"; a failing geometry plan is wrapped
as "resize failed". `shotW × shotH` are the dimensions of the captured
screenshot. -/
def executeBrowserRequestTrace (url htmlContent : List Char) (config : RequestConfigM)
    (shotW shotH : Int) : List BrowserStep × Except (List Char) Unit :=
  let pre : List BrowserStep :=
    [.connect, .createPage] ++
    (if config.Cookies.length > 0 then [.setCookies] else []) ++
    (if htmlContent ≠ [] then [.setDocumentContent] else [.navigate]) ++
    (if config.ViewportWidth > 0 ∧ config.ViewportHeight > 0 then [.setViewport] else []) ++
    [.waitLoad] ++
    (if config.WaitSeconds > 0 then [.sleepWait] else []) ++
    (if config.FullHeight then [.adjustFullHeight] else []) ++
    (if config.CaptureCookies then [.getCookies] else [])
  if config.CaptureScreenshot then
    let steps1 := pre ++ [.screenshot]
    let resizeResult : Except (List Char) Unit :=
      if config.ResizeParam ≠ [] then
        match parseResizeString config.ResizeParam with
        | .error e => .error ("invalid resize parameters: ".data ++ e)
        | .ok params =>
          match planResize params shotW shotH with
          | .error e => .error ("resize failed: ".data ++ e)
          | .ok _ => .ok ()
      else .ok ()
    match resizeResult with
    | .error e => (steps1, .error e)
    | .ok _ => (steps1 ++ (if config.CaptureHTML then [.getHTML] else []), .ok ())
  else
    (pre ++ (if config.CaptureHTML then [.getHTML] else []), .ok ())

/-- The screenshot-mode CLI flow of `main` (`main.go` lines 818-892):
parse the request configuration, then run the browser request with
screenshot capture enabled. A configuration parse error is returned before
any browser interaction (empty trace). -/
def runCaptureScreenshot (viewportParam resizeParam timeoutParam waitParam domainsParam :
    List Char) (fullHeight : Bool) (url htmlContent : List Char) (shotW shotH : Int) :
    List BrowserStep × Except (List Char) Unit :=
  match parseRequestConfig viewportParam resizeParam timeoutParam waitParam domainsParam
      fullHeight with
  | .error e => ([], .error e)
  | .ok config =>
    executeBrowserRequestTrace url htmlContent { config with CaptureScreenshot := true }
      shotW shotH

theorem Ratio.le_iff_toRat (a b : Ratio) (ha : 0 < a.den) (hb : 0 < b.den) :
    a.le b = true ↔ a.toRat ≤ b.toRat := by
  unfold Ratio.le Ratio.toRat
  rw [decide_eq_true_iff, Rat.divInt_le_divInt ha hb,
    show a.num * a.den * (b.den * b.den) = a.num * b.den * (a.den * b.den) by ring,
    show b.num * b.den * (a.den * a.den) = b.num * a.den * (a.den * b.den) by ring,
    mul_le_mul_right (mul_pos ha hb)]

theorem ratioMin_toRat (a b : Ratio) (ha : 0 < a.den) (hb : 0 < b.den) :
    (ratioMin a b).toRat = min a.toRat b.toRat := by
  unfold ratioMin
  by_cases h : a.le b = true
  · rw [if_pos h, min_eq_left ((Ratio.le_iff_toRat a b ha hb).mp h)]
  · rw [if_neg h]
    have : ¬ a.toRat ≤ b.toRat := fun hle => h ((Ratio.le_iff_toRat a b ha hb).mpr hle)
    rw [min_eq_right (le_of_lt (lt_of_not_le this))]

theorem ratioMax_toRat (a b : Ratio) (ha : 0 < a.den) (hb : 0 < b.den) :
    (ratioMax a b).toRat = max a.toRat b.toRat := by
  unfold ratioMax
  by_cases h : a.le b = true
  · rw [if_pos h, max_eq_right ((Ratio.le_iff_toRat a b ha hb).mp h)]
  · rw [if_neg h]
    have : ¬ a.toRat ≤ b.toRat := fun hle => h ((Ratio.le_iff_toRat a b ha hb).mpr hle)
    rw [max_eq_left (le_of_lt (lt_of_not_le this))]

/-- C1: with both width and height set, aspect kept and no manual crop, the
planner's uniform scale ratio is the minimum of the two per-axis ratios
without center-crop and the maximum with it; on a 1000×500 source,
`"200x200"` scales by 1/5 to 200×100, and `"200x200#"` scales by 2/5 to
400×200 then center-crops 200×200 at offset (100, 0). -/
theorem resize_fit_fill :
    (∀ (p : ResizeParams) (w h : Int) (plan : ResizePlan),
      0 < w → 0 < h →
      p.KeepAspect = true → p.Crop = false → p.Percentage = false →
      p.Width ≠ 0 → p.Height ≠ 0 →
      planResize p w h = .ok plan →
      plan.scaleX.toRat =
        if p.AutoCrop then
          max (Rat.divInt p.Width w) (Rat.divInt p.Height h)
        else
          min (Rat.divInt p.Width w) (Rat.divInt p.Height h)) ∧
    planFromString "200x200".data 1000 500 =
      .ok { targetW := 200, targetH := 200, scaleX := ⟨200, 1000⟩, scaleY := ⟨200, 1000⟩,
            scaledW := 200, scaledH := 100, crop := none } ∧
    planFromString "200x200#".data 1000 500 =
      .ok { targetW := 200, targetH := 200, scaleX := ⟨200, 500⟩, scaleY := ⟨200, 500⟩,
            scaledW := 400, scaledH := 200, crop := some (100, 0, 200, 200) } := by
  refine ⟨?_, by decide, by decide⟩
  intro p w h plan hw hh hKA hC hP hW hH hplan
  unfold planResize at hplan
  rw [hC, hKA, hP] at hplan
  simp only [Bool.false_eq_true, if_false, if_true] at hplan
  rw [if_neg hW, if_neg hH] at hplan
  by_cases hA : p.AutoCrop = true
  · rw [hA] at hplan
    simp only [if_true] at hplan
    split at hplan
    · exact absurd hplan (by simp)
    · cases hplan
      rw [if_pos hA, ratioMax_toRat _ _ hw hh]
      rfl
  · rw [Bool.not_eq_true] at hA
    rw [hA] at hplan
    simp only [Bool.false_eq_true, if_false] at hplan
    split at hplan
    · exact absurd hplan (by simp)
    · cases hplan
      rw [hA]
      simp only [Bool.false_eq_true, if_false]
      rw [ratioMin_toRat _ _ hw hh]
      rfl

theorem resize_fit_fill_witness :
    (⟨200, 1000⟩ : Ratio).toRat = min (Rat.divInt 200 1000) (Rat.divInt 200 500) := by
  have h := resize_fit_fill.1 { Width := 200, Height := 200 } 1000 500
    { targetW := 200, targetH := 200, scaleX := ⟨200, 1000⟩, scaleY := ⟨200, 1000⟩,
      scaledW := 200, scaledH := 100, crop := none }
    (by decide) (by decide) rfl rfl rfl (by decide) (by decide) (by decide)
  simpa using h

/-- C4 (counterexample): contrary to the claim, parsing `"x"` returns no
error: it succeeds with both width and height zero — exactly a silent
zero-size parse result. -/
theorem resize_parse_x_silent_zero :
    parseResizeString "x".data =
      .ok { Width := 0, Height := 0, KeepAspect := true, Percentage := false,
            AutoCrop := false, Crop := false, CropOffsetX := 0, CropOffsetY := 0 } := by
  decide

/-- C4 (amended): `"abcxdef"` and `"100x200x300"` are rejected at parse
time; `"x"` parses successfully to a zero-size `ResizeParams`, and that
zero size is only rejected later, by the geometry planner, as an invalid
scale ratio. -/
theorem resize_invalid_strings :
    parseResizeString "abcxdef".data = .error "invalid width".data ∧
    parseResizeString "100x200x300".data = .error "invalid resize format".data ∧
    parseResizeString "x".data = .ok ({} : ResizeParams) ∧
    ∀ w h : Int, planResize ({} : ResizeParams) w h = .error "invalid scale ratio".data := by
  refine ⟨by decide, by decide, by decide, ?_⟩
  intro w h
  simp [planResize, Ratio.nonpos]

/-- C5 (counterexample): for the percentage spec `"50%x50%#"` on a 10×10
source the center crop's window is the raw parsed (50, 50), not the
percentage-scaled targets (5, 5), and its offset −22 is truncated — not
floor — division of (5 − 50) by 2. -/
theorem resize_center_crop_counterexample :
    planFromString "50%x50%#".data 10 10 =
      .ok { targetW := 5, targetH := 5, scaleX := ⟨5, 10⟩, scaleY := ⟨5, 10⟩,
            scaledW := 5, scaledH := 5, crop := some (-22, -22, 50, 50) } ∧
    (some ((-22 : Int), (-22 : Int), (50 : Int), (50 : Int)) ≠
      some ((0 : Int), (0 : Int), (5 : Int), (5 : Int))) ∧
    (-22 : Int) ≠ Int.fdiv (5 - 50) 2 := by
  decide

/-- C5 (amended): with center-after-scale crop and no manual crop, the crop
window is exactly the raw parsed `(params.Width, params.Height)` — equal to
the percentage-scaled targets only when the percentage flag is unset — at
offset `((scaledW − params.Width) / 2, (scaledH − params.Height) / 2)`
computed with Go's truncated (toward-zero) integer division. -/
theorem resize_center_crop_window :
    ∀ (p : ResizeParams) (w h : Int) (plan : ResizePlan),
      p.AutoCrop = true → p.Crop = false →
      planResize p w h = .ok plan →
      plan.crop = some ((plan.scaledW - p.Width).tdiv 2,
        (plan.scaledH - p.Height).tdiv 2, p.Width, p.Height) := by
  intro p w h plan hA hC hplan
  unfold planResize at hplan
  rw [hC, hA] at hplan
  simp only [Bool.false_eq_true, if_false, if_true] at hplan
  repeat' first
    | rfl
    | exact Except.noConfusion hplan
    | (injection hplan with hinj; rw [← hinj])
    | split at hplan

theorem resize_center_crop_window_witness :
    ({ targetW := 200, targetH := 200, scaleX := ⟨200, 500⟩, scaleY := ⟨200, 500⟩,
       scaledW := 400, scaledH := 200, crop := some (100, 0, 200, 200) } : ResizePlan).crop =
      some (((400 : Int) - 200).tdiv 2, ((200 : Int) - 200).tdiv 2, 200, 200) :=
  resize_center_crop_window { Width := 200, Height := 200, AutoCrop := true } 1000 500 _
    rfl rfl (by decide)

/-- C2 (counterexample): allowing a request whose original headers contain
`Authorization: old` with custom header `Authorization: new` keeps the
original entry in the continued header list, so the claimed removal of
same-named (even identically-named) original entries does not happen. -/
theorem header_merge_counterexample :
    ¬ headerMergeRemovesSameNamed
      [⟨"Authorization".data, "old".data⟩]
      [("Authorization".data, "new".data)] := by
  decide

/-- C2 (amended): every header list handed to continue-with-headers is the
original request's entries, in order, followed by every custom key/value
pair; same-named original entries are retained (custom values merely come
later), every custom key is present with its custom value, and every
original entry is preserved. -/
theorem header_merge_appends :
    ∀ (cfg : HijackConfigM) (first : Bool) (host : List Char)
      (existing : List FetchHeaderEntry) (hs : List FetchHeaderEntry),
      (hijackHandle cfg first host existing).1 = .continueWith hs →
      hs = existing ++ cfg.CustomHeaders.map (fun kv => ⟨kv.1, kv.2⟩) ∧
      (∀ e ∈ existing, e ∈ hs) ∧
      (∀ kv ∈ cfg.CustomHeaders, (⟨kv.1, kv.2⟩ : FetchHeaderEntry) ∈ hs) := by
  intro cfg first host existing hs h
  have hb : hs = existing ++ cfg.CustomHeaders.map (fun kv => ⟨kv.1, kv.2⟩) := by
    simp only [hijackHandle, hijackSteady] at h
    repeat' first
      | (injection h with h2; exact h2.symm)
      | exact HijackOutcome.noConfusion h
      | split at h
  refine ⟨hb, ?_, ?_⟩
  · intro e he
    rw [hb]
    exact List.mem_append_left _ he
  · intro kv hkv
    rw [hb]
    exact List.mem_append_right _ (List.mem_map_of_mem _ hkv)

theorem header_merge_appends_witness :
    [⟨"Authorization".data, "old".data⟩, ⟨"Authorization".data, "new".data⟩] =
      [(⟨"Authorization".data, "old".data⟩ : FetchHeaderEntry)] ++
        [("Authorization".data, "new".data)].map
          (fun kv => (⟨kv.1, kv.2⟩ : FetchHeaderEntry)) ∧
    (∀ e ∈ [(⟨"Authorization".data, "old".data⟩ : FetchHeaderEntry)],
      e ∈ [(⟨"Authorization".data, "old".data⟩ : FetchHeaderEntry),
           ⟨"Authorization".data, "new".data⟩]) ∧
    (∀ kv ∈ [("Authorization".data, "new".data)],
      (⟨kv.1, kv.2⟩ : FetchHeaderEntry) ∈
        [(⟨"Authorization".data, "old".data⟩ : FetchHeaderEntry),
         ⟨"Authorization".data, "new".data⟩]) :=
  header_merge_appends
    { DomainWhitelist := [], CustomHeaders := [("Authorization".data, "new".data)],
      PermitFirstRequest := false }
    true "example.com".data
    [⟨"Authorization".data, "old".data⟩]
    [⟨"Authorization".data, "old".data⟩, ⟨"Authorization".data, "new".data⟩]
    (by decide)

theorem runHijackFrom_no_permit (cfg : HijackConfigM)
    (hp : cfg.PermitFirstRequest = false) (first : Bool)
    (reqs : List (List Char × List FetchHeaderEntry)) :
    runHijackFrom cfg first reqs =
      (reqs.map (fun r => (hijackSteady cfg r.1 r.2, false)), first) := by
  induction reqs with
  | nil => rfl
  | cons r rest ih =>
    simp [runHijackFrom, hijackHandle, hp, ih]

theorem countP_snd_map_false {A B : Type} (l : List A) (f : A → B) :
    ((l.map (fun r => (f r, false))).countP (fun o => o.2)) = 0 := by
  induction l with
  | nil => rfl
  | cons a rest ih => simp [List.countP_cons, ih]

theorem runHijackFrom_flag_false (cfg : HijackConfigM)
    (reqs : List (List Char × List FetchHeaderEntry)) :
    ((runHijackFrom cfg false reqs).1.countP (fun o => o.2)) = 0 ∧
    (runHijackFrom cfg false reqs).2 = false := by
  induction reqs with
  | nil => simp [runHijackFrom]
  | cons r rest ih =>
    simp [runHijackFrom, hijackHandle, List.countP_cons, ih.1, ih.2]

/-- C9: within one session the first-request-exempt path is taken at most
once; with exemption enabled and at least one intercepted request it is
taken exactly once, whichever requests arrive and in whatever order (the
compare-and-swap on the `firstRequest` flag is modelled by its
linearization: the handler runs once per request in delivery order). -/
theorem first_request_exempt_once :
    ∀ (cfg : HijackConfigM) (reqs : List (List Char × List FetchHeaderEntry)),
      ((runHijackSession cfg reqs).1.countP (fun o => o.2)) ≤ 1 ∧
      (cfg.PermitFirstRequest = true → reqs ≠ [] →
        ((runHijackSession cfg reqs).1.countP (fun o => o.2)) = 1) := by
  intro cfg reqs
  unfold runHijackSession
  cases hp : cfg.PermitFirstRequest with
  | false =>
    rw [runHijackFrom_no_permit cfg hp true reqs]
    constructor
    · rw [show (reqs.map (fun r => (hijackSteady cfg r.1 r.2, false)), true).1 =
          reqs.map (fun r => (hijackSteady cfg r.1 r.2, false)) from rfl,
        countP_snd_map_false]
      exact Nat.zero_le 1
    · intro h _
      exact absurd h (by simp)
  | true =>
    cases reqs with
    | nil => simp [runHijackFrom]
    | cons r rest =>
      have hstep :
          runHijackFrom cfg true (r :: rest) =
            (((hijackHandle cfg true r.1 r.2).1, true) ::
              (runHijackFrom cfg false rest).1,
             (runHijackFrom cfg false rest).2) := by
        simp [runHijackFrom, hijackHandle, hp]
      rw [hstep]
      simp [List.countP_cons, (runHijackFrom_flag_false cfg rest).1]

theorem first_request_exempt_once_witness :
    (((runHijackSession
        { DomainWhitelist := [], CustomHeaders := [], PermitFirstRequest := true }
        [("a.com".data, []), ("b.com".data, []), ("c.com".data, [])]).1.countP
          (fun o => o.2)) = 1) :=
  (first_request_exempt_once
    { DomainWhitelist := [], CustomHeaders := [], PermitFirstRequest := true }
    [("a.com".data, []), ("b.com".data, []), ("c.com".data, [])]).2 rfl (by decide)

/-- C10: the orchestrator enables the first-request exemption exactly when
the capture target is a non-empty URL; for inline-HTML captures (empty
url) no invocation ever takes the exempt path — every intercepted request,
the first included, receives the steady-state whitelist-filtering
decision. -/
theorem inline_html_no_exemption :
    (∀ (url : List Char) (config : RequestConfigM),
      ((mkHijackConfig url config).PermitFirstRequest = true ↔ url ≠ [])) ∧
    (∀ (config : RequestConfigM) (reqs : List (List Char × List FetchHeaderEntry)),
      (runHijackSession (mkHijackConfig [] config) reqs).1 =
        reqs.map (fun r => (hijackSteady (mkHijackConfig [] config) r.1 r.2, false))) := by
  constructor
  · intro url config
    simp [mkHijackConfig]
  · intro config reqs
    unfold runHijackSession
    rw [runHijackFrom_no_permit _ (by simp [mkHijackConfig]) true reqs]

theorem mem_keys_assocStore {α : Type} (m : List (List Char × α)) (k : List Char) (v : α)
    (x : List Char) :
    x ∈ (assocStore m k v).map Prod.fst ↔ x ∈ m.map Prod.fst ∨ x = k := by
  induction m with
  | nil => simp [assocStore]
  | cons p rest ih =>
    cases p with
    | mk k' v' =>
      have e1 : assocStore ((k', v') :: rest) k v =
          if k' = k then (k, v) :: rest else (k', v') :: assocStore rest k v := rfl
      by_cases hk : k' = k
      · subst hk
        rw [e1, if_pos rfl]
        simp only [List.map_cons, List.mem_cons]
        tauto
      · rw [e1, if_neg hk]
        simp only [List.map_cons, List.mem_cons, ih]
        tauto

theorem nodup_keys_assocStore {α : Type} (m : List (List Char × α)) (k : List Char) (v : α)
    (h : (m.map Prod.fst).Nodup) : ((assocStore m k v).map Prod.fst).Nodup := by
  induction m with
  | nil => simp [assocStore]
  | cons p rest ih =>
    cases p with
    | mk k' v' =>
      simp only [List.map_cons, List.nodup_cons] at h
      have e1 : assocStore ((k', v') :: rest) k v =
          if k' = k then (k, v) :: rest else (k', v') :: assocStore rest k v := rfl
      by_cases hk : k' = k
      · rw [e1, if_pos hk]
        simp only [List.map_cons, List.nodup_cons]
        exact ⟨by rw [← hk]; exact h.1, h.2⟩
      · rw [e1, if_neg hk]
        simp only [List.map_cons, List.nodup_cons]
        refine ⟨?_, ih h.2⟩
        intro hmem
        rcases (mem_keys_assocStore rest k v k').mp hmem with h' | h'
        · exact h.1 h'
        · exact hk h'

theorem assocErase_keys_sublist {α : Type} (m : List (List Char × α)) (k : List Char) :
    List.Sublist ((assocErase m k).map Prod.fst) (m.map Prod.fst) := by
  induction m with
  | nil => simp [assocErase]
  | cons p rest ih =>
    cases p with
    | mk k' v' =>
      have e1 : assocErase ((k', v') :: rest) k =
          if k' = k then assocErase rest k else (k', v') :: assocErase rest k := rfl
      by_cases hk : k' = k
      · rw [e1, if_pos hk]
        exact ih.trans (List.sublist_cons_self _ _)
      · rw [e1, if_neg hk]
        exact ih.cons₂ _

theorem assocLookup_assocErase_self {α : Type} (m : List (List Char × α)) (k : List Char) :
    assocLookup (assocErase m k) k = none := by
  induction m with
  | nil => rfl
  | cons p rest ih =>
    cases p with
    | mk k' v' =>
      have e1 : assocErase ((k', v') :: rest) k =
          if k' = k then assocErase rest k else (k', v') :: assocErase rest k := rfl
      by_cases hk : k' = k
      · rw [e1, if_pos hk]
        exact ih
      · rw [e1, if_neg hk]
        have e2 : assocLookup ((k', v') :: assocErase rest k) k =
            if k' = k then some v' else assocLookup (assocErase rest k) k := rfl
        rw [e2, if_neg hk]
        exact ih

theorem corrStep_preserves_nodup (s : CorrelatorState) (e : NetEvent)
    (h1 : (s.requestInfo.map Prod.fst).Nodup) (h2 : (s.requestTimes.map Prod.fst).Nodup) :
    ((corrStep s e).requestInfo.map Prod.fst).Nodup ∧
    ((corrStep s e).requestTimes.map Prod.fst).Nodup := by
  cases e with
  | requestWillBeSent id url method headers now =>
    exact ⟨nodup_keys_assocStore _ _ _ h1, nodup_keys_assocStore _ _ _ h2⟩
  | responseReceived id status headers now =>
    rcases hinfo : assocLookup s.requestInfo id with _ | info <;>
      rcases htime : assocLookup s.requestTimes id with _ | startTime <;>
        simp only [corrStep, hinfo, htime] <;>
          first
            | exact ⟨h1, h2⟩
            | exact ⟨h1.sublist (assocErase_keys_sublist _ _),
                h2.sublist (assocErase_keys_sublist _ _)⟩
  | loadingFailed id errorText now =>
    rcases hinfo : assocLookup s.requestInfo id with _ | info <;>
      rcases htime : assocLookup s.requestTimes id with _ | startTime <;>
        simp only [corrStep, hinfo, htime] <;>
          first
            | exact ⟨h1, h2⟩
            | exact ⟨h1.sublist (assocErase_keys_sublist _ _),
                h2.sublist (assocErase_keys_sublist _ _)⟩

theorem corrFold_preserves_nodup (events : List NetEvent) :
    ∀ s : CorrelatorState,
      (s.requestInfo.map Prod.fst).Nodup → (s.requestTimes.map Prod.fst).Nodup →
      (((events.foldl corrStep s).requestInfo.map Prod.fst).Nodup ∧
       ((events.foldl corrStep s).requestTimes.map Prod.fst).Nodup) := by
  induction events with
  | nil => exact fun s h1 h2 => ⟨h1, h2⟩
  | cons e rest ih =>
    intro s h1 h2
    have h := corrStep_preserves_nodup s e h1 h2
    exact ih (corrStep s e) h.1 h.2

theorem corrStep_completion_noop (s : CorrelatorState) (id : List Char) (e : NetEvent)
    (hnone : assocLookup s.requestInfo id = none ∨ assocLookup s.requestTimes id = none)
    (he : (∃ st hd now, e = .responseReceived id st hd now) ∨
      (∃ err now, e = .loadingFailed id err now)) :
    corrStep s e = s := by
  rcases he with ⟨st2, hd2, now2, rfl⟩ | ⟨err2, now2, rfl⟩ <;>
    rcases hinfo : assocLookup s.requestInfo id with _ | info <;>
      rcases htime : assocLookup s.requestTimes id with _ | startTime <;>
        simp_all [corrStep]

theorem corrStep_completion_evicts (s : CorrelatorState) (id : List Char) (e : NetEvent)
    (he : (∃ st hd now, e = .responseReceived id st hd now) ∨
      (∃ err now, e = .loadingFailed id err now)) :
    assocLookup (corrStep s e).requestInfo id = none ∨
      assocLookup (corrStep s e).requestTimes id = none := by
  rcases he with ⟨st2, hd2, now2, rfl⟩ | ⟨err2, now2, rfl⟩ <;>
    rcases hinfo : assocLookup s.requestInfo id with _ | info <;>
      rcases htime : assocLookup s.requestTimes id with _ | startTime <;>
        simp [corrStep, hinfo, htime, assocLookup_assocErase_self]

/-- C3: after any event sequence the correlator holds at most one live
record per request identifier (its key lists are duplicate-free), and a
second completion event — response or failure — for an identifier already
finalized and evicted, or never seen at all, is a no-op: it changes no
state and appends no duplicate finalized entry. -/
theorem correlator_live_unique_idempotent :
    (∀ events : List NetEvent,
      (((corrRun events).requestInfo.map Prod.fst).Nodup ∧
       ((corrRun events).requestTimes.map Prod.fst).Nodup)) ∧
    (∀ (s : CorrelatorState) (id : List Char) (st : Int)
        (hd : List (List Char × List Char)) (now : Nat) (e2 : NetEvent),
      ((∃ st2 hd2 now2, e2 = .responseReceived id st2 hd2 now2) ∨
        (∃ err2 now2, e2 = .loadingFailed id err2 now2)) →
      corrStep (corrStep s (.responseReceived id st hd now)) e2 =
        corrStep s (.responseReceived id st hd now)) ∧
    (∀ (s : CorrelatorState) (id err : List Char) (now : Nat) (e2 : NetEvent),
      ((∃ st2 hd2 now2, e2 = .responseReceived id st2 hd2 now2) ∨
        (∃ err2 now2, e2 = .loadingFailed id err2 now2)) →
      corrStep (corrStep s (.loadingFailed id err now)) e2 =
        corrStep s (.loadingFailed id err now)) ∧
    (∀ (id : List Char) (st : Int) (hd : List (List Char × List Char)) (now : Nat),
      corrStep corrInit (.responseReceived id st hd now) = corrInit) ∧
    (∀ (id err : List Char) (now : Nat),
      corrStep corrInit (.loadingFailed id err now) = corrInit) := by
  refine ⟨?_, ?_, ?_, ?_, ?_⟩
  · intro events
    exact corrFold_preserves_nodup events corrInit (by simp [corrInit]) (by simp [corrInit])
  · intro s id st hd now e2 he
    exact corrStep_completion_noop _ id e2
      (corrStep_completion_evicts s id _ (Or.inl ⟨st, hd, now, rfl⟩)) he
  · intro s id err now e2 he
    exact corrStep_completion_noop _ id e2
      (corrStep_completion_evicts s id _ (Or.inr ⟨err, now, rfl⟩)) he
  · intro id st hd now
    simp [corrStep, corrInit, assocLookup]
  · intro id err now
    simp [corrStep, corrInit, assocLookup]

theorem globMatch_literal (p : List Char) (hp : ∀ c ∈ p, c ≠ '*' ∧ c ≠ '?') :
    ∀ s : List Char, globMatch p s = true ↔ s = p := by
  induction p with
  | nil =>
    intro s
    simp [globMatch, List.isEmpty_iff]
  | cons a ps ih =>
    intro s
    have ha := hp a (List.mem_cons_self a ps)
    cases s with
    | nil =>
      simp only [globMatch, if_neg ha.1]
      simp
    | cons c rest =>
      simp only [globMatch, if_neg ha.1, if_neg ha.2]
      rw [Bool.and_eq_true, decide_eq_true_iff,
        ih (fun x hx => hp x (List.mem_cons_of_mem a hx)) rest]
      constructor
      · rintro ⟨rfl, rfl⟩
        rfl
      · intro h
        injection h with h1 h2
        exact ⟨h1.symm, h2⟩

theorem globMatch_star (ps : List Char) :
    ∀ s : List Char, globMatch ('*' :: ps) s = true ↔
      ∃ t u, s = t ++ u ∧ (∀ c ∈ t, c ≠ '/') ∧ globMatch ps u = true := by
  intro s
  induction s with
  | nil =>
    simp only [globMatch, if_pos rfl, if_true, Bool.or_false]
    constructor
    · intro h
      exact ⟨[], [], rfl, by simp, h⟩
    · rintro ⟨t, u, hsplit, _, hm⟩
      rcases List.append_eq_nil.mp hsplit.symm with ⟨rfl, rfl⟩
      exact hm
  | cons c rest ih =>
    simp only [globMatch, if_pos rfl, if_true]
    rw [Bool.or_eq_true, Bool.and_eq_true, decide_eq_true_iff]
    constructor
    · rintro (h1 | ⟨hc, h2⟩)
      · exact ⟨[], c :: rest, rfl, by simp, h1⟩
      · rcases ih.mp h2 with ⟨t, u, rfl, hsl, hm⟩
        refine ⟨c :: t, u, rfl, ?_, hm⟩
        intro x hx
        rcases List.mem_cons.mp hx with rfl | hx'
        · exact hc
        · exact hsl x hx'
    · rintro ⟨t, u, hsplit, hsl, hm⟩
      cases t with
      | nil =>
        left
        rw [List.nil_append] at hsplit
        rw [hsplit]
        exact hm
      | cons tc tt =>
        right
        rw [List.cons_append] at hsplit
        injection hsplit with h1 h2
        subst h1
        refine ⟨hsl c (List.mem_cons_self c tt), ?_⟩
        exact ih.mpr ⟨tt, u, h2, fun x hx => hsl x (List.mem_cons_of_mem _ hx), hm⟩

/-- C6: against the single allow-list pattern `*.suffix` (with `suffix`
free of glob metacharacters), a hostname extracted from a request URL
(hence containing no `/`) is accepted exactly when it ends with `.suffix`
and differs from `suffix` itself; in particular `*.cdn.com` accepts
`a.cdn.com` and rejects `cdn.com`. -/
theorem domain_wildcard_suffix :
    (∀ (host suffix : List Char),
      (∀ c ∈ host, c ≠ '/') → (∀ c ∈ suffix, c ≠ '*' ∧ c ≠ '?') →
      (isDomainWhitelistedHost host ['*' :: '.' :: suffix] = true ↔
        (List.IsSuffix ('.' :: suffix) host ∧ host ≠ suffix))) ∧
    isDomainWhitelistedHost "a.cdn.com".data ["*.cdn.com".data] = true ∧
    isDomainWhitelistedHost "cdn.com".data ["*.cdn.com".data] = false := by
  refine ⟨?_, ?_, ?_⟩
  · intro host suffix hh hs
    have hred : isDomainWhitelistedHost host ['*' :: '.' :: suffix] =
        globMatch ('*' :: '.' :: suffix) host := by
      simp [isDomainWhitelistedHost, hasPrefixChar]
    rw [hred, globMatch_star ('.' :: suffix) host]
    have hlit := globMatch_literal ('.' :: suffix) (by
      intro c hc
      rcases List.mem_cons.mp hc with rfl | hc'
      · exact ⟨by decide, by decide⟩
      · exact hs c hc')
    constructor
    · rintro ⟨t, u, rfl, hsl, hm⟩
      rw [hlit u] at hm
      subst hm
      refine ⟨⟨t, rfl⟩, ?_⟩
      intro heq
      have := congrArg List.length heq
      simp at this
      omega
    · rintro ⟨⟨t, ht⟩, _⟩
      refine ⟨t, '.' :: suffix, ht.symm, ?_, (hlit _).mpr rfl⟩
      intro x hx
      exact hh x (by rw [← ht]; exact List.mem_append_left _ hx)
  · simp [isDomainWhitelistedHost, globMatch, hasPrefixChar]
  · simp [isDomainWhitelistedHost, globMatch, hasPrefixChar]

theorem domain_wildcard_suffix_witness :
    isDomainWhitelistedHost "x.cdn.com".data ['*' :: '.' :: "cdn.com".data] = true :=
  (domain_wildcard_suffix.1 "x.cdn.com".data "cdn.com".data (by decide) (by decide)).mpr
    (by constructor
        · exact ⟨"x".data, by decide⟩
        · decide)

theorem parseRequestConfig_fields (vp rp tp wp dp : List Char) (fh : Bool)
    (cfg : RequestConfigM) (hok : parseRequestConfig vp rp tp wp dp fh = .ok cfg) :
    cfg.ResizeParam = rp ∧ cfg.CaptureScreenshot = false := by
  unfold parseRequestConfig at hok
  repeat' first
    | exact Except.noConfusion hok
    | (injection hok with h2; rw [← h2]; exact ⟨rfl, rfl⟩)
    | split at hok

/-- C7 (counterexample): with the malformed resize spec `"100x200x300"` and
a URL target, the capture run connects, navigates, waits for load and takes
the screenshot before the resize specification is ever parsed; the
configuration error surfaces only after the screenshot, not before browser
interaction. -/
theorem config_error_after_screenshot :
    runCaptureScreenshot [] "100x200x300".data [] [] [] false
        "http://example.com".data [] 1280 720 =
      ([.connect, .createPage, .navigate, .waitLoad, .screenshot],
       .error "invalid resize parameters: invalid resize format".data) ∧
    BrowserStep.screenshot ∈
      (runCaptureScreenshot [] "100x200x300".data [] [] [] false
        "http://example.com".data [] 1280 720).1 := by
  decide

/-- C7 (amended): the viewport, timeout, wait and domain-list parameters
are validated before any browser interaction — a parse failure there
returns the error with no browser step taken — but a malformed resize
specification is not pre-validated: it is detected only after the
screenshot is captured, surfaced as "invalid resize parameters"; and a
malformed domain pattern can never produce a configuration error because
the whitelist parser accepts every input. -/
theorem config_error_ordering :
    (∀ (vp rp tp wp dp : List Char) (fh : Bool) (url html : List Char) (w h : Int)
        (e : List Char),
      parseRequestConfig vp rp tp wp dp fh = .error e →
      runCaptureScreenshot vp rp tp wp dp fh url html w h = ([], .error e)) ∧
    (∀ (vp rp tp wp dp : List Char) (fh : Bool) (url html : List Char) (w h : Int)
        (cfg : RequestConfigM) (e : List Char),
      parseRequestConfig vp rp tp wp dp fh = .ok cfg →
      rp ≠ [] →
      parseResizeString rp = .error e →
      ∃ steps, runCaptureScreenshot vp rp tp wp dp fh url html w h =
          (steps, .error ("invalid resize parameters: ".data ++ e)) ∧
        BrowserStep.screenshot ∈ steps ∧ BrowserStep.connect ∈ steps ∧
        BrowserStep.waitLoad ∈ steps) ∧
    (∀ s : List Char, ∃ l, ParseDomainWhitelist s = .ok l) := by
  refine ⟨?_, ?_, ?_⟩
  · intro vp rp tp wp dp fh url html w h e herr
    unfold runCaptureScreenshot
    rw [herr]
  · intro vp rp tp wp dp fh url html w h cfg e hok hne herr
    obtain ⟨hrp, _⟩ := parseRequestConfig_fields vp rp tp wp dp fh cfg hok
    have hrun : runCaptureScreenshot vp rp tp wp dp fh url html w h =
        executeBrowserRequestTrace url html { cfg with CaptureScreenshot := true } w h := by
      unfold runCaptureScreenshot
      rw [hok]
    rw [hrun]
    unfold executeBrowserRequestTrace
    simp only [hrp, herr, if_true]
    rw [if_pos hne]
    refine ⟨_, rfl, ?_, ?_, ?_⟩
    · exact List.mem_append_right _ (List.mem_singleton.mpr rfl)
    · refine List.mem_append_left _ ?_
      simp
    · refine List.mem_append_left _ ?_
      simp
  · intro s
    unfold ParseDomainWhitelist
    by_cases hs : s = []
    · rw [if_pos hs]
      exact ⟨[], rfl⟩
    · rw [if_neg hs]
      exact ⟨_, rfl⟩

theorem config_error_ordering_witness :
    runCaptureScreenshot "bogus".data [] [] [] [] false
        "http://example.com".data [] 1280 720 =
      ([], .error "invalid viewport parameters: invalid viewport format, expected WxH".data) :=
  config_error_ordering.1 "bogus".data [] [] [] [] false
    "http://example.com".data [] 1280 720
    "invalid viewport parameters: invalid viewport format, expected WxH".data
    (by decide)

set_option maxHeartbeats 2000000 in
/-- C8: the full-height planner's target height always lies between the
resolved minimum baseline and ten times that baseline (the tenfold cap
saturating at the platform maximum), and the baseline itself is the first
positive value among the configured viewport height, the visual-viewport
client height, the layout-viewport client height and the measured content
height, defaulting to 1 — never zero or negative. -/
theorem full_height_bounds :
    ∀ (cfgH contentH : Int) (visualH layoutH : Option Int),
      cfgH ≤ maxGoInt → contentH ≤ maxGoInt →
      (∀ v ∈ visualH, v ≤ maxGoInt) → (∀ v ∈ layoutH, v ≤ maxGoInt) →
      1 ≤ (fullHeightPlan cfgH visualH layoutH contentH).1 ∧
      (fullHeightPlan cfgH visualH layoutH contentH).1 ≤
        (fullHeightPlan cfgH visualH layoutH contentH).2 ∧
      (fullHeightPlan cfgH visualH layoutH contentH).2 ≤
        10 * (fullHeightPlan cfgH visualH layoutH contentH).1 ∧
      (fullHeightPlan cfgH visualH layoutH contentH).2 ≤ maxGoInt ∧
      (fullHeightPlan cfgH visualH layoutH contentH).1 =
        (if 0 < cfgH then cfgH
         else if 0 < visualH.getD 0 then visualH.getD 0
         else if 0 < layoutH.getD 0 then layoutH.getD 0
         else if 0 < contentH then contentH
         else 1) := by
  have htdiv : Int.tdiv 9223372036854775807 10 = 922337203685477580 := by decide
  have hmax : maxGoInt = 9223372036854775807 := rfl
  intro cfgH contentH visualH layoutH h1 h2 h3 h4
  rw [hmax] at h1 h2
  rcases visualH with _ | v <;> rcases layoutH with _ | l
  · simp only [fullHeightPlan, htdiv, hmax, Option.getD_none]
    split_ifs <;> omega
  · have hl := h4 l rfl
    rw [hmax] at hl
    simp only [fullHeightPlan, htdiv, hmax, Option.getD_none, Option.getD_some]
    split_ifs <;> omega
  · have hv := h3 v rfl
    rw [hmax] at hv
    simp only [fullHeightPlan, htdiv, hmax, Option.getD_none, Option.getD_some]
    split_ifs <;> omega
  · have hv := h3 v rfl
    have hl := h4 l rfl
    rw [hmax] at hv hl
    simp only [fullHeightPlan, htdiv, hmax, Option.getD_some]
    split_ifs <;> omega

theorem full_height_bounds_witness :
    1 ≤ (fullHeightPlan 800 none none 100000).1 ∧
    (fullHeightPlan 800 none none 100000).1 ≤ (fullHeightPlan 800 none none 100000).2 :=
  let h := full_height_bounds 800 100000 none none (by decide) (by decide)
    (by simp) (by simp)
  ⟨h.1, h.2.1⟩

theorem correlator_live_unique_idempotent_witness :
    corrStep (corrStep corrInit (.responseReceived "1".data 200 [] 5))
        (.responseReceived "1".data 200 [] 9) =
      corrStep corrInit (.responseReceived "1".data 200 [] 5) :=
  correlator_live_unique_idempotent.2.1 corrInit "1".data 200 [] 5
    (.responseReceived "1".data 200 [] 9) (Or.inl ⟨200, [], 9, rfl⟩)
